import Mathlib

/-!
# Contextual logger (`pkg/appLogger/app_logger.go`)

A shallow embedding of the logging wrapper and its response-body capture
adapter.

Conventions of the embedding:

* a Go `string` and a Go `[]byte` are both finite byte sequences, so
  `string(b)` and `buf.String()` are the identity on `GoString`;
* pointers to mutable objects that are shared (`*bytes.Buffer`, the
  framework's response writer) are addresses into a `Heap`;
* the receiver `a *AppLoggerImpl` and the `*gin.Context` it references live
  in the program `State`; a method is a function on `State`;
* a run-time panic (nil dereference) is the result `none`;
* the underlying structured logger is observed at its call boundary: every
  leveled write that the wrapper issues is appended to `State.log` as an
  `Entry` carrying its level, message and fields.  Of what the engine does
  with an entry afterwards, its level filter (`State.records`) and the names
  of the members of the written record (`Entry.keys`) are described, as the
  specification and the configuration in `initZapLogger` give them; rate
  sampling and the encoding of values are not;
* readings of the wall clock are arguments (`Int`, nanoseconds).
-/

namespace applogger

/-! ## Strings and bytes -/

abbrev GoString := List UInt8

/-- Bytes of a string literal of the source (all of them are ASCII). -/
def ascii (s : String) : GoString := s.toList.map (fun c => c.toNat.toUInt8)

/-- Go `strings.HasPrefix`: `len(s) >= len(p) && s[:len(p)] == p`. -/
def HasPrefix (s p : GoString) : Bool :=
  decide (p.length ≤ s.length) && (s.take p.length == p)

/-! ## Dynamic values and log fields -/

/-- A Go value of interface type `any`, as far as the logger tells values
apart: strings, integers, and everything else (kept as its rendering). -/
inductive Any where
  | null
  | string (s : GoString)
  | int64 (i : Int)
  | other (rendering : GoString)
  deriving DecidableEq

/-- A `zap.Field`: a key and the value attached to it. -/
structure Field where
  Key : GoString
  Value : Any
  deriving DecidableEq

namespace zap

def String (key val : GoString) : Field := ⟨key, Any.string val⟩

def Int64 (key : GoString) (val : Int) : Field := ⟨key, Any.int64 val⟩

/-- Go `zap.Int` is `Int64(key, int64(val))`. -/
def Int (key : GoString) (val : Int) : Field := ⟨key, Any.int64 val⟩

def Any (key : GoString) (val : applogger.Any) : Field := ⟨key, val⟩

end zap

/-! ## Severity levels of the underlying logger -/

/-- The `zapcore.Level` values that have a name. -/
inductive Level where
  | Debug | Info | Warn | Error | DPanic | Panic | Fatal
  deriving DecidableEq

/-- Go `zapcore.Level.String`. -/
def Level.String : Level → GoString
  | .Debug => ascii "debug"
  | .Info => ascii "info"
  | .Warn => ascii "warn"
  | .Error => ascii "error"
  | .DPanic => ascii "dpanic"
  | .Panic => ascii "panic"
  | .Fatal => ascii "fatal"

/-- Modelled from the spec: the level parser belongs to the logging library,
which is not among the sources.  One attempt of `zapcore.Level.unmarshalText`:
the conventional severity names, in lower or upper case, and the empty text
for the zero value. -/
def unmarshalText (text : GoString) : Option Level :=
  if text = ascii "debug" ∨ text = ascii "DEBUG" then some .Debug
  else if text = ascii "info" ∨ text = ascii "INFO" ∨ text = [] then some .Info
  else if text = ascii "warn" ∨ text = ascii "WARN" then some .Warn
  else if text = ascii "error" ∨ text = ascii "ERROR" then some .Error
  else if text = ascii "dpanic" ∨ text = ascii "DPANIC" then some .DPanic
  else if text = ascii "panic" ∨ text = ascii "PANIC" then some .Panic
  else if text = ascii "fatal" ∨ text = ascii "FATAL" then some .Fatal
  else none

/-- Lower-casing of one ASCII byte. -/
def lowerByte (c : UInt8) : UInt8 :=
  if 65 ≤ c.toNat ∧ c.toNat ≤ 90 then (c.toNat + 32).toUInt8 else c

/-- Modelled from the spec: Go `bytes.ToLower`.  ASCII-only text is lowered
byte by byte; text with a byte outside ASCII goes through the Unicode case
tables, which are taken as the parameter `unicodeLower`. -/
def ToLower (unicodeLower : GoString → GoString) (s : GoString) : GoString :=
  if s.all (fun c => decide (c.toNat < 128)) then s.map lowerByte else unicodeLower s

/-- Modelled from the spec: `zapcore.ParseLevel`: the text as given, then the
text lowered; `none` is the parse error. -/
def ParseLevel (unicodeLower : GoString → GoString) (text : GoString) : Option Level :=
  match unmarshalText text with
  | some l => some l
  | none => unmarshalText (ToLower unicodeLower text)

/-- Modelled from the spec: `zap.ParseAtomicLevel`: a fresh atomic level
(which starts at the default, info) set to the parsed level when parsing
succeeds; the second component tells whether an error is returned. -/
def ParseAtomicLevel (unicodeLower : GoString → GoString) (text : GoString) : Level × Bool :=
  match ParseLevel unicodeLower text with
  | some l => (l, false)
  | none => (Level.Info, true)

/-- One leveled write issued to the underlying logger. -/
structure Entry where
  Level : Level
  Message : GoString
  Fields : List Field
  deriving DecidableEq

/-- A `*zap.Logger` as `initZapLogger` builds it: of its configuration only
the level is observable here, and no fields are attached to it. -/
structure Logger where
  level : Level
  deriving DecidableEq

/-- A logger derived by `WithOptions(zap.Fields(...))`: the level of its
parent and the attached fields. -/
structure FieldLogger where
  level : Level
  context : List Field
  deriving DecidableEq

/-- Go `l.WithOptions(zap.Fields(fs...))`. -/
def Logger.WithFields (l : Logger) (fs : List Field) : FieldLogger :=
  { level := l.level, context := fs }

/-- The entry of a leveled write: the logger's attached fields, then the
fields of the call. -/
def FieldLogger.entry (l : FieldLogger) (lvl : Level) (msg : GoString) (fs : List Field) :
    Entry :=
  ⟨lvl, msg, l.context ++ fs⟩

/-- The numeric value of a `zapcore.Level`. -/
def Level.toInt : Level → Int
  | .Debug => -1
  | .Info => 0
  | .Warn => 1
  | .Error => 2
  | .DPanic => 3
  | .Panic => 4
  | .Fatal => 5

/-- Modelled from the spec: the level filter of the logging library, which is
not among the sources: a write at level `lvl` passes a logger whose
threshold is `threshold` when `lvl` is at or above it. -/
def Level.Enabled (threshold lvl : Level) : Bool :=
  decide (threshold.toInt ≤ lvl.toInt)

/-- Modelled from the spec: the member names of the record written for an
entry, in the order the encoder writes them.  The record shape is
`{timestamp, level, message, fields...}`; `initZapLogger` sets the time key
to "timestamp" and the message key to "message" and leaves the level key
"level" and the stack trace key "stacktrace" of the production
configuration, which attaches a stack trace at error level and above.
Names are not deduplicated. -/
def Entry.keys (e : Entry) : List GoString :=
  [ascii "level", ascii "timestamp", ascii "message"]
    ++ e.Fields.map (fun f => f.Key)
    ++ (if Level.Enabled Level.Error e.Level then [ascii "stacktrace"] else [])

/-! ## Response writers -/

/-- The state of a response writer of the web framework (the object a
handler writes to before any adapter is installed). -/
structure GinWriter where
  /-- The response header map, canonical key to values. -/
  header : List (GoString × List GoString)
  status : Int
  /-- The byte slices passed to `Write` so far, oldest first. -/
  received : List (List UInt8)
  /-- What the coming calls of `Write` return, in order: byte count and
  error.  When exhausted, a write reports its full length and no error. -/
  results : List (Int × Option GoString)
  deriving DecidableEq

/-- A value of interface type `gin.ResponseWriter`: the framework's own
writer object, or a `bodyLogWriter` around another writer.  Both the buffer
of an adapter and the framework's writer are referenced by address. -/
inductive ResponseWriter where
  | gin (addr : Nat)
  | bodyLog (inner : ResponseWriter) (body : Nat)
  deriving DecidableEq

/-- The struct `bodyLogWriter { gin.ResponseWriter; body *bytes.Buffer }`. -/
structure bodyLogWriter where
  ResponseWriter : ResponseWriter
  body : Nat
  deriving DecidableEq

/-- A `*bodyLogWriter` stored in a slot of interface type. -/
def bodyLogWriter.toWriter (w : bodyLogWriter) : applogger.ResponseWriter :=
  .bodyLog w.ResponseWriter w.body

/-- The shared mutable objects. -/
structure Heap where
  /-- Contents of the `bytes.Buffer` objects, by address. -/
  buffers : Nat → List UInt8
  /-- Number of buffers allocated so far; the next one gets this address. -/
  nbuffers : Nat
  /-- The framework's writer objects, by address. -/
  writers : Nat → GinWriter

/-- Go `bytes.NewBufferString("")`: a fresh empty buffer. -/
def Heap.newBuffer (h : Heap) : Nat × Heap :=
  (h.nbuffers,
   { h with buffers := Function.update h.buffers h.nbuffers [], nbuffers := h.nbuffers + 1 })

/-- Go `(*bytes.Buffer).Write`: append. -/
def Heap.bufferWrite (h : Heap) (p : Nat) (b : List UInt8) : Heap :=
  { h with buffers := Function.update h.buffers p (h.buffers p ++ b) }

/-- Method `Write` of the framework's writer: the slice is taken note of and the
next scripted result is returned. -/
def GinWriter.Write (g : GinWriter) (b : List UInt8) : GinWriter × (Int × Option GoString) :=
  ({ g with received := g.received ++ [b], results := g.results.tail },
   g.results.headD ((b.length : Int), none))

/-- Method `Write` of a `gin.ResponseWriter` value.  For an adapter this is
`bodyLogWriter.Write`:
`w.body.Write(b); return w.ResponseWriter.Write(b)`. -/
def ResponseWriter.Write : ResponseWriter → List UInt8 → Heap → Heap × (Int × Option GoString)
  | .gin addr, b, h =>
      let r := (h.writers addr).Write b
      ({ h with writers := Function.update h.writers addr r.1 }, r.2)
  | .bodyLog inner body, b, h => inner.Write b (h.bufferWrite body b)

/-- Method `WriteString` of the framework's writer: as `Write`, for the
bytes of the string. -/
def GinWriter.WriteString (g : GinWriter) (s : GoString) :
    GinWriter × (Int × Option GoString) :=
  ({ g with received := g.received ++ [s], results := g.results.tail },
   g.results.headD ((s.length : Int), none))

/-- Method `WriteString` of a `gin.ResponseWriter` value.  The struct
`bodyLogWriter` declares `Write` only, so for an adapter this is the method
promoted from the embedded `gin.ResponseWriter`: the call goes to the
wrapped writer and the adapter's buffer is not touched. -/
def ResponseWriter.WriteString :
    ResponseWriter → GoString → Heap → Heap × (Int × Option GoString)
  | .gin addr, s, h =>
      let r := (h.writers addr).WriteString s
      ({ h with writers := Function.update h.writers addr r.1 }, r.2)
  | .bodyLog inner _, s, h => inner.WriteString s h

/-- Go `func (w bodyLogWriter) Write(b []byte) (int, error)`. -/
def bodyLogWriter.Write (w : bodyLogWriter) (b : List UInt8) (h : Heap) :
    Heap × (Int × Option GoString) :=
  w.ResponseWriter.Write b (h.bufferWrite w.body b)

/-- The framework writer at the bottom of a chain of adapters: promoted
methods (`Header`, `Status`) end up there. -/
def ResponseWriter.base : ResponseWriter → Nat
  | .gin addr => addr
  | .bodyLog inner _ => inner.base

/-- The buffers of the adapters of a chain, outermost first. -/
def ResponseWriter.bodies : ResponseWriter → List Nat
  | .gin _ => []
  | .bodyLog inner body => body :: inner.bodies

/-- The slices `ws` written one after the other with `Write` on the writer
`w`. -/
def ResponseWriter.writeAll (w : ResponseWriter) (ws : List (List UInt8)) (h : Heap) : Heap :=
  ws.foldl (fun h b => (w.Write b h).1) h

/-- One write of a handler to a response writer: with `Write` or with
`WriteString`, the two methods of `gin.ResponseWriter` that take body
bytes. -/
inductive HandlerWrite where
  | Write (b : List UInt8)
  | WriteString (s : GoString)
  deriving DecidableEq

/-- The bytes a handler write hands over. -/
def HandlerWrite.bytes : HandlerWrite → List UInt8
  | .Write b => b
  | .WriteString s => s

/-- The bytes of a handler write when it was made with `Write`, nothing
when it was made with `WriteString`. -/
def HandlerWrite.written : HandlerWrite → List UInt8
  | .Write b => b
  | .WriteString _ => []

/-- One handler write on the writer `w`. -/
def ResponseWriter.handle (w : ResponseWriter) : HandlerWrite → Heap → Heap
  | .Write b, h => (w.Write b h).1
  | .WriteString s, h => (w.WriteString s h).1

/-- The handler writes `hws` made one after the other on the writer `w`. -/
def ResponseWriter.handleAll (w : ResponseWriter) (hws : List HandlerWrite) (h : Heap) : Heap :=
  hws.foldl (fun h hw => w.handle hw h) h

/-- Go `http.Header.Get` for a key in canonical form: the first value stored
under the key, or the empty string. -/
def HeaderGet (header : List (GoString × List GoString)) (key : GoString) : GoString :=
  match header.lookup key with
  | some (v :: _) => v
  | _ => []

/-- The handler replacing the response header map of a writer. -/
def Heap.setHeader (h : Heap) (addr : Nat) (header : List (GoString × List GoString)) : Heap :=
  { h with writers := Function.update h.writers addr { h.writers addr with header := header } }

/-! ## Requests and the request context -/

/-- A request body stream: the bytes it delivers and how it ends (`none` is
a regular end of stream, `some e` a read error after the bytes). -/
structure Body where
  data : List UInt8
  err : Option GoString
  deriving DecidableEq

/-- Go `io.ReadAll`: everything read until the end of the stream or the
first error, and that error. -/
def ReadAll (r : Body) : List UInt8 × Option GoString := (r.data, r.err)

/-- Go `io.NopCloser(bytes.NewBuffer(buf))`: a stream over `buf`. -/
def NopCloserBuffer (buf : List UInt8) : Body := ⟨buf, none⟩

/-- Go `(*bytes.Buffer).ReadFrom`: appends what the reader delivers. -/
def BufferReadFrom (buf : List UInt8) (r : Body) : List UInt8 := buf ++ r.data

/-- Go `readBody`. -/
def readBody (reader : Body) : GoString :=
  let buf : List UInt8 := []
  let buf := BufferReadFrom buf reader
  let s := buf
  s

/-- The parts of `*http.Request` the logger reads. -/
structure Request where
  Header : List (GoString × List GoString)
  URLPath : GoString
  Body : Option Body
  deriving DecidableEq

/-- The parts of `*gin.Context` the logger reads and writes. -/
structure Context where
  Request : Request
  Writer : ResponseWriter
  Keys : List (GoString × Any)
  deriving DecidableEq

/-- Go `(*gin.Context).GetString`: the value stored under the key when it is
a string, the empty string otherwise. -/
def Context.GetString (c : Context) (key : GoString) : GoString :=
  match c.Keys.lookup key with
  | some (Any.string s) => s
  | _ => []

/-! ## The logger -/

/-- The struct `AppLoggerImpl`.  `ctx = none` is the nil context, `t = none`
the zero time, `responseBody = none` the nil adapter. -/
structure AppLoggerImpl where
  zapLogger : Logger
  ctx : Option Context
  fields : AList (fun _ : GoString => GoString)
  t : Option Int
  requestBody : GoString
  responseBody : Option bodyLogWriter

/-- Program state: the receiver, the shared objects, and the entries written
to the underlying logger so far. -/
structure State where
  a : AppLoggerImpl
  heap : Heap
  log : List Entry

/-- The entries that pass the level filter of the logger: the records it
emits. -/
def State.records (s : State) : List Entry :=
  s.log.filter fun e => Level.Enabled s.a.zapLogger.level e.Level

def RefID : GoString := ascii "refID"

def AppName : GoString := ascii "appName"

def ServiceName : GoString := ascii "serviceName"

/-- Go `initZapLogger`: the parse error is dropped (`lvl, _ := ...`) and the
level of the result is what the parser returned.  Of the configuration only
the level matters here; building the production configuration does not
fail. -/
def initZapLogger (unicodeLower : GoString → GoString) (level : GoString) : Logger :=
  let lvl := (ParseAtomicLevel unicodeLower level).1
  { level := lvl }

/-- Go `NewAppLogger`. -/
def NewAppLogger (unicodeLower : GoString → GoString) (level : GoString) : AppLoggerImpl :=
  { zapLogger := initZapLogger unicodeLower level
    ctx := none
    fields := ∅
    t := none
    requestBody := []
    responseBody := none }

/-- Go `(*AppLoggerImpl).WithContext`. -/
def WithContext (ctx : Option Context) (s : State) : State :=
  { s with a := { s.a with ctx := ctx } }

/-- Go `(*AppLoggerImpl).WithField`. -/
def WithField (key value : GoString) (s : State) : State :=
  { s with a := { s.a with fields := s.a.fields.insert key value } }

/-- Go `(*AppLoggerImpl).Clone`: the new logger, and the state after the
call. -/
def Clone (unicodeLower : GoString → GoString) (s : State) : AppLoggerImpl × State :=
  (NewAppLogger unicodeLower s.a.zapLogger.level.String, s)

/-- Go `(*AppLoggerImpl).generateFields`; `now` is the clock reading that
becomes the log id.  The field store is ranged over in the order of its
entries. -/
def generateFields (a : AppLoggerImpl) (now : Int) : List Field :=
  let field : List Field := []
  let field := field ++ [zap.Int64 (ascii "logID") now]
  let field :=
    match a.ctx with
    | some ctx =>
        let sid := ctx.GetString (ascii "sid")
        let field := if sid ≠ [] then field ++ [zap.String (ascii "sid") sid] else field
        let custID := ctx.GetString (ascii "custID")
        if custID ≠ [] then field ++ [zap.String (ascii "custID") custID] else field
    | none => field
  a.fields.entries.foldl (fun field e => field ++ [zap.String e.1 e.2]) field

/-- Go `(*AppLoggerImpl).Error`. -/
def Error (message : GoString) (refID : Any) (serviceName : GoString) (result : Any)
    (now : Int) (s : State) : State :=
  let log := s.a.zapLogger.WithFields (generateFields s.a now)
  { s with log := s.log ++ [log.entry Level.Error message
      [zap.Any (ascii "refID") refID, zap.Any (ascii "serviceName") (Any.string serviceName),
       zap.Any (ascii "result") result]] }

/-- Go `(*AppLoggerImpl).Warn`. -/
def Warn (message : GoString) (refID : Any) (serviceName : GoString) (result : Any)
    (now : Int) (s : State) : State :=
  let log := s.a.zapLogger.WithFields (generateFields s.a now)
  { s with log := s.log ++ [log.entry Level.Warn message
      [zap.Any (ascii "refID") refID, zap.Any (ascii "serviceName") (Any.string serviceName),
       zap.Any (ascii "result") result]] }

/-- Go `(*AppLoggerImpl).Info`. -/
def Info (message : GoString) (refID : Any) (serviceName : GoString) (result : Any)
    (now : Int) (s : State) : State :=
  let log := s.a.zapLogger.WithFields (generateFields s.a now)
  { s with log := s.log ++ [log.entry Level.Info message
      [zap.Any (ascii "refID") refID, zap.Any (ascii "serviceName") (Any.string serviceName),
       zap.Any (ascii "result") result]] }

/-- Go `(*AppLoggerImpl).Debug`. -/
def Debug (message : GoString) (refID : Any) (serviceName : GoString) (result : Any)
    (now : Int) (s : State) : State :=
  let log := s.a.zapLogger.WithFields (generateFields s.a now)
  { s with log := s.log ++ [log.entry Level.Debug message
      [zap.Any (ascii "refID") refID, zap.Any (ascii "serviceName") (Any.string serviceName),
       zap.Any (ascii "result") result]] }

/-- Go `time.Since(a.t).Milliseconds()` at the clock reading `now`: the
elapsed nanoseconds, saturated to the range of a `Duration`, divided by
`1e6` with truncation.  Since the zero time lies more than a `Duration`
before any present reading, an unset start time gives the largest
duration. -/
def latency (now : Int) (t : Option Int) : Int :=
  let maxDuration : Int := 9223372036854775807
  let d : Int :=
    match t with
    | some t0 => max (-maxDuration - 1) (min maxDuration (now - t0))
    | none => maxDuration
  Int.tdiv d 1000000

/-- Go `(*AppLoggerImpl).LogRequest`.  `now` is the reading stored as the
request start, `logNow` the later reading taken for the log id. -/
def LogRequest (now logNow : Int) (s : State) : Option State :=
  let a := { s.a with t := some now }
  -- `a.ctx.Request`: dereferences the context
  match a.ctx with
  | none => none
  | some ctx =>
    let contentType := HeaderGet ctx.Request.Header (ascii "Content-Type")
    let isFileUpload := HasPrefix contentType (ascii "multipart/form-data")
    -- get raw body
    let (ctx, a) :=
      match ctx.Request.Body with
      | some body =>
          if !isFileUpload then
            let buf := (ReadAll body).1
            let reader := NopCloserBuffer buf
            let ctx := { ctx with Request := { ctx.Request with Body := some (NopCloserBuffer buf) } }
            (ctx, { a with ctx := some ctx, requestBody := readBody reader })
          else (ctx, a)
      | none => (ctx, a)
    -- set body writer
    let (body, heap) := s.heap.newBuffer
    let blw : bodyLogWriter := { body := body, ResponseWriter := ctx.Writer }
    let ctx := { ctx with Writer := blw.toWriter }
    let a := { a with ctx := some ctx, responseBody := some blw }
    match a.ctx with
    | some ctx =>
        let log := a.zapLogger.WithFields (generateFields a logNow)
        some { a := a, heap := heap, log := s.log ++ [log.entry Level.Info (ascii "request")
          [zap.String (ascii "url") ctx.Request.URLPath,
           zap.String (ascii "input") a.requestBody,
           zap.String (ascii "output") [],
           zap.Int64 (ascii "latency") 0,
           zap.Int (ascii "status") 0]] }
    | none => some { a := a, heap := heap, log := s.log }

/-- Go `(*AppLoggerImpl).LogResponse`.  `logNow` is the reading taken for the
log id, `now` the later reading taken by `time.Since`. -/
def LogResponse (logNow now : Int) (s : State) : Option State :=
  let a := s.a
  match a.ctx with
  | some ctx =>
      let contentType :=
        HeaderGet (s.heap.writers ctx.Writer.base).header (ascii "Content-Type")
      let body : Option GoString :=
        if HasPrefix contentType (ascii "application/json") then
          -- `a.responseBody.body`: dereferences the adapter
          match a.responseBody with
          | some blw => some (s.heap.buffers blw.body)
          | none => none
        else some []
      match body with
      | none => none
      | some body =>
          let log := a.zapLogger.WithFields (generateFields a logNow)
          some { s with log := s.log ++ [log.entry Level.Info (ascii "response")
            [zap.String (ascii "url") ctx.Request.URLPath,
             zap.String (ascii "input") a.requestBody,
             zap.String (ascii "output") body,
             zap.Int64 (ascii "latency") (latency now a.t),
             zap.Int (ascii "status") (s.heap.writers ctx.Writer.base).status]] }
  | none => some s

/-- A handler calling `Write(b)` on the writer installed in the attached
context; without a context there is nothing to write to. -/
def handlerWrite (b : List UInt8) (s : State) : State :=
  match s.a.ctx with
  | some ctx => { s with heap := (ctx.Writer.Write b s.heap).1 }
  | none => s

/-- A handler calling `WriteString(str)` on the writer installed in the
attached context. -/
def handlerWriteString (str : GoString) (s : State) : State :=
  match s.a.ctx with
  | some ctx => { s with heap := (ctx.Writer.WriteString str s.heap).1 }
  | none => s

/-- A program state right after start-up: nothing allocated but the
framework writers `writers`, nothing logged. -/
def State.init (a : AppLoggerImpl) (writers : Nat → GinWriter) : State :=
  { a := a, heap := { buffers := fun _ => [], nbuffers := 0, writers := writers }, log := [] }

/-- The fields `generateFields` takes from the request context. -/
def contextFields (ctx : Option Context) : List Field :=
  match ctx with
  | some ctx =>
      (if ctx.GetString (ascii "sid") ≠ [] then
        [zap.String (ascii "sid") (ctx.GetString (ascii "sid"))] else [])
      ++ (if ctx.GetString (ascii "custID") ≠ [] then
        [zap.String (ascii "custID") (ctx.GetString (ascii "custID"))] else [])
  | none => []

/-! ## Sequences of calls -/

/-- The calls that can follow each other on one logger while a request is
handled: the leveled writes, the two request hooks, attaching a context or
a field, and the handler writing to the response. -/
inductive Op where
  | Debug (message : GoString) (refID : Any) (serviceName : GoString) (result : Any) (now : Int)
  | Info (message : GoString) (refID : Any) (serviceName : GoString) (result : Any) (now : Int)
  | Warn (message : GoString) (refID : Any) (serviceName : GoString) (result : Any) (now : Int)
  | Error (message : GoString) (refID : Any) (serviceName : GoString) (result : Any) (now : Int)
  | LogRequest (now logNow : Int)
  | LogResponse (logNow now : Int)
  | WithContext (ctx : Option Context)
  | WithField (key value : GoString)
  | Write (b : List UInt8)
  | WriteString (str : GoString)

/-- Running one call; `none` is a panic. -/
def Op.run : Op → State → Option State
  | .Debug m r sv res now, s => some (applogger.Debug m r sv res now s)
  | .Info m r sv res now, s => some (applogger.Info m r sv res now s)
  | .Warn m r sv res now, s => some (applogger.Warn m r sv res now s)
  | .Error m r sv res now, s => some (applogger.Error m r sv res now s)
  | .LogRequest now logNow, s => applogger.LogRequest now logNow s
  | .LogResponse logNow now, s => applogger.LogResponse logNow now s
  | .WithContext ctx, s => some (applogger.WithContext ctx s)
  | .WithField key value, s => some (applogger.WithField key value s)
  | .Write b, s => some (handlerWrite b s)
  | .WriteString str, s => some (handlerWriteString str s)

/-- Running calls one after the other, up to the first panic. -/
def exec : List Op → State → Option State
  | [], s => some s
  | op :: ops, s =>
      match op.run s with
      | some s1 => exec ops s1
      | none => none

/-- The member names a call supplies by itself: for a call that writes an
entry, the names of the record's level, time and message, the log id, the
two context-derived names and the names of the fields of the call, and for
`Error` the name of the stack trace (all that is in the record next to the
field store); for `WithField`, the key it stores. -/
def Op.ownKeys : Op → List GoString
  | .Debug .. | .Info .. | .Warn .. =>
      [ascii "level", ascii "timestamp", ascii "message",
       ascii "logID", ascii "sid", ascii "custID",
       ascii "refID", ascii "serviceName", ascii "result"]
  | .Error .. =>
      [ascii "level", ascii "timestamp", ascii "message",
       ascii "logID", ascii "sid", ascii "custID",
       ascii "refID", ascii "serviceName", ascii "result", ascii "stacktrace"]
  | .LogRequest .. | .LogResponse .. =>
      [ascii "level", ascii "timestamp", ascii "message",
       ascii "logID", ascii "sid", ascii "custID",
       ascii "url", ascii "input", ascii "output", ascii "latency", ascii "status"]
  | .WithField key _ => [key]
  | .WithContext _ | .Write _ | .WriteString _ => []

/-! ## Concrete inputs -/

/-- A framework writer that has received nothing yet; the response header
carries the given content type. -/
def sampleWriter (contentType : GoString) : GinWriter :=
  { header := [(ascii "Content-Type", [contentType])], status := 200, received := [],
    results := [] }

/-- A request context for a POST with the given content type and body,
whose response writer is the framework writer at address 0. -/
def sampleContext (contentType : GoString) (body : GoString) : Context :=
  { Request :=
      { Header := [(ascii "Content-Type", [contentType])]
        URLPath := ascii "/orders"
        Body := some ⟨body, none⟩ }
    Writer := ResponseWriter.gin 0
    Keys := [] }

/-- The state after `NewAppLogger("info")`, with framework writers whose
response content type is `responseType`. -/
def sampleState (responseType : GoString) : State :=
  State.init (NewAppLogger id (ascii "info")) (fun _ => sampleWriter responseType)

/-- A request handled from start to end, followed by a leveled write. -/
def sampleCalls : List Op :=
  [Op.WithContext (some (sampleContext (ascii "application/json") (ascii "[1,2]"))),
   Op.WithField ServiceName (ascii "billing"),
   Op.LogRequest 1 2,
   Op.Write (ascii "ok"),
   Op.WriteString (ascii "!"),
   Op.LogResponse 3 4,
   Op.Info (ascii "done") (Any.int64 7) (ascii "main") Any.null 5,
   Op.Error (ascii "failed") (Any.int64 8) (ascii "main") Any.null 6]

/-! ## Facts about writing through a chain of adapters -/

theorem Write_depends_on_writers (w : ResponseWriter) (b : List UInt8) :
    ∀ h h' : Heap, h.writers = h'.writers →
      (w.Write b h).2 = (w.Write b h').2 ∧ (w.Write b h).1.writers = (w.Write b h').1.writers := by
  induction w with
  | gin addr =>
      intro h h' hw
      simp [ResponseWriter.Write, hw]
  | bodyLog inner body ih =>
      intro h h' hw
      simp only [ResponseWriter.Write]
      exact ih _ _ (by simpa [Heap.bufferWrite] using hw)

theorem Write_writers (w : ResponseWriter) (b : List UInt8) :
    ∀ h : Heap, (w.Write b h).1.writers
        = Function.update h.writers w.base ((h.writers w.base).Write b).1
      ∧ (w.Write b h).2 = ((h.writers w.base).Write b).2 := by
  induction w with
  | gin addr => intro h; simp [ResponseWriter.Write, ResponseWriter.base]
  | bodyLog inner body ih =>
      intro h
      simp only [ResponseWriter.Write, ResponseWriter.base]
      simpa [Heap.bufferWrite] using ih (h.bufferWrite body b)

theorem Write_buffers_of_not_mem (w : ResponseWriter) (b : List UInt8) (p : Nat) :
    ∀ h : Heap, p ∉ w.bodies → (w.Write b h).1.buffers p = h.buffers p := by
  induction w with
  | gin addr => intro h _; simp [ResponseWriter.Write]
  | bodyLog inner body ih =>
      intro h hp
      simp only [ResponseWriter.bodies, List.mem_cons, not_or] at hp
      simp only [ResponseWriter.Write]
      rw [ih _ hp.2]
      simp [Heap.bufferWrite, Function.update_noteq hp.1]

theorem writeAll_buffers (inner : ResponseWriter) (body : Nat) (hown : body ∉ inner.bodies)
    (ws : List (List UInt8)) :
    ∀ h : Heap, ((ResponseWriter.bodyLog inner body).writeAll ws h).buffers body
      = h.buffers body ++ ws.flatten := by
  induction ws with
  | nil => intro h; simp [ResponseWriter.writeAll]
  | cons b ws ih =>
      intro h
      have := ih ((ResponseWriter.bodyLog inner body).Write b h).1
      simp only [ResponseWriter.writeAll] at this ⊢
      simp only [List.foldl_cons, this, List.flatten_cons]
      simp only [ResponseWriter.Write]
      rw [Write_buffers_of_not_mem _ _ _ _ hown]
      simp [Heap.bufferWrite]

theorem writeAll_writers (w : ResponseWriter) (ws : List (List UInt8)) :
    ∀ h : Heap, ((w.writeAll ws h).writers w.base).received
        = (h.writers w.base).received ++ ws
      ∧ ((w.writeAll ws h).writers w.base).header = (h.writers w.base).header
      ∧ ((w.writeAll ws h).writers w.base).status = (h.writers w.base).status := by
  induction ws with
  | nil => intro h; simp [ResponseWriter.writeAll]
  | cons b ws ih =>
      intro h
      have := ih (w.Write b h).1
      simp only [ResponseWriter.writeAll] at this ⊢
      simp only [List.foldl_cons, this, (Write_writers w b h).1]
      simp [GinWriter.Write]

theorem WriteString_heap (w : ResponseWriter) (str : GoString) :
    ∀ h : Heap, (w.WriteString str h).1.writers
        = Function.update h.writers w.base ((h.writers w.base).WriteString str).1
      ∧ (w.WriteString str h).1.buffers = h.buffers := by
  induction w with
  | gin addr => intro h; simp [ResponseWriter.WriteString, ResponseWriter.base]
  | bodyLog inner body ih =>
      intro h
      simp only [ResponseWriter.WriteString, ResponseWriter.base]
      exact ih h

/-- The outermost adapter keeps the bytes written with `Write` and none of
those written with `WriteString`. -/
theorem handleAll_buffers (inner : ResponseWriter) (body : Nat) (hown : body ∉ inner.bodies)
    (hws : List HandlerWrite) :
    ∀ h : Heap, ((ResponseWriter.bodyLog inner body).handleAll hws h).buffers body
      = h.buffers body ++ (hws.map HandlerWrite.written).flatten := by
  induction hws with
  | nil => intro h; simp [ResponseWriter.handleAll]
  | cons hw hws ih =>
      intro h
      have := ih ((ResponseWriter.bodyLog inner body).handle hw h)
      simp only [ResponseWriter.handleAll] at this ⊢
      simp only [List.foldl_cons, this, List.map_cons, List.flatten_cons]
      cases hw with
      | Write b =>
          simp only [ResponseWriter.handle, ResponseWriter.Write, HandlerWrite.written]
          rw [Write_buffers_of_not_mem _ _ _ _ hown]
          simp [Heap.bufferWrite]
      | WriteString str =>
          simp only [ResponseWriter.handle, HandlerWrite.written]
          rw [(WriteString_heap _ str h).2]
          simp

/-- The framework writer at the bottom receives every handler write, made
with either method; header and status stay. -/
theorem handleAll_writers (w : ResponseWriter) (hws : List HandlerWrite) :
    ∀ h : Heap, ((w.handleAll hws h).writers w.base).received
        = (h.writers w.base).received ++ hws.map HandlerWrite.bytes
      ∧ ((w.handleAll hws h).writers w.base).header = (h.writers w.base).header
      ∧ ((w.handleAll hws h).writers w.base).status = (h.writers w.base).status := by
  induction hws with
  | nil => intro h; simp [ResponseWriter.handleAll]
  | cons hw hws ih =>
      intro h
      have := ih (w.handle hw h)
      simp only [ResponseWriter.handleAll] at this ⊢
      simp only [List.foldl_cons, this]
      cases hw with
      | Write b =>
          simp only [ResponseWriter.handle, (Write_writers w b h).1]
          simp [GinWriter.Write, HandlerWrite.bytes]
      | WriteString str =>
          simp only [ResponseWriter.handle, (WriteString_heap w str h).1]
          simp [GinWriter.WriteString, HandlerWrite.bytes]

/-! ## Facts about the field store and the hooks -/

theorem filter_key_of_not_mem_keys (k : GoString) :
    ∀ l : List (Sigma fun _ : GoString => GoString), k ∉ l.keys →
      (l.map fun e => zap.String e.1 e.2).filter (fun f => decide (f.Key = k)) = [] := by
  intro l
  induction l with
  | nil => intro _; rfl
  | cons e l ih =>
      intro hk
      simp only [List.keys_cons, List.mem_cons, not_or] at hk
      have hne : ¬ (zap.String e.1 e.2).Key = k := fun h => hk.1 h.symm
      rw [List.map_cons, List.filter_cons, if_neg (by simpa using hne)]
      exact ih hk.2

theorem filter_key_of_lookup (k v : GoString) :
    ∀ l : List (Sigma fun _ : GoString => GoString), l.NodupKeys → List.dlookup k l = some v →
      (l.map fun e => zap.String e.1 e.2).filter (fun f => decide (f.Key = k))
        = [zap.String k v] := by
  intro l
  induction l with
  | nil => intro _ h; simp at h
  | cons e l ih =>
      intro nd hl
      obtain ⟨k', v'⟩ := e
      rw [List.nodupKeys_cons] at nd
      by_cases hk : k' = k
      · subst hk
        simp only [List.dlookup_cons_eq, Option.some.injEq] at hl
        subst hl
        have hkey : (zap.String k' v').Key = k' := rfl
        rw [List.map_cons, List.filter_cons, if_pos (by simpa using hkey),
          filter_key_of_not_mem_keys k' l nd.1]
      · have hk' : k ≠ k' := fun h => hk h.symm
        rw [List.dlookup_cons_ne _ _ hk'] at hl
        have hne : ¬ (zap.String k' v').Key = k := hk
        rw [List.map_cons, List.filter_cons, if_neg (by simpa using hne)]
        exact ih nd.2 hl

/-- The loop of `generateFields` over the field store appends one string
field per entry. -/
theorem foldl_fields (l : List (Sigma fun _ : GoString => GoString)) :
    ∀ field : List Field,
      l.foldl (fun field e => field ++ [zap.String e.1 e.2]) field
        = field ++ l.map fun e => zap.String e.1 e.2 := by
  induction l with
  | nil => intro field; simp
  | cons e l ih => intro field; simp [ih]

theorem generateFields_eq (a : AppLoggerImpl) (now : Int) :
    generateFields a now
      = [zap.Int64 (ascii "logID") now] ++ contextFields a.ctx
        ++ a.fields.entries.map fun e => zap.String e.1 e.2 := by
  unfold generateFields contextFields
  rw [foldl_fields]
  cases a.ctx with
  | none => simp
  | some ctx => by_cases h1 : ctx.GetString (ascii "sid") = [] <;>
      by_cases h2 : ctx.GetString (ascii "custID") = [] <;> simp [h1, h2]

theorem ParseLevel_String (unicodeLower : GoString → GoString) (l : Level) :
    ParseLevel unicodeLower l.String = some l := by
  cases l <;> rfl

theorem contextFields_filter (ctx : Option Context) (k : GoString)
    (h2 : k ≠ ascii "sid") (h3 : k ≠ ascii "custID") :
    (contextFields ctx).filter (fun f => decide (f.Key = k)) = [] := by
  have e2 : ∀ v, ¬ (zap.String (ascii "sid") v).Key = k := fun v h => h2 h.symm
  have e3 : ∀ v, ¬ (zap.String (ascii "custID") v).Key = k := fun v h => h3 h.symm
  cases ctx with
  | none => rfl
  | some ctx =>
      simp only [contextFields]
      split_ifs <;> simp [List.filter_cons, e2, e3]

theorem generateFields_filter (a : AppLoggerImpl) (now : Int) (k v : GoString)
    (hlook : a.fields.lookup k = some v)
    (h1 : k ≠ ascii "logID") (h2 : k ≠ ascii "sid") (h3 : k ≠ ascii "custID") :
    (generateFields a now).filter (fun f => decide (f.Key = k)) = [zap.String k v] := by
  have e1 : ¬ (zap.Int64 (ascii "logID") now).Key = k := fun h => h1 h.symm
  rw [generateFields_eq, List.filter_append, List.filter_append,
    contextFields_filter _ _ h2 h3, filter_key_of_lookup k v _ a.fields.nodupKeys hlook]
  simp [List.filter_cons, e1]

/-- What `LogRequest` does when a context is attached. -/
theorem LogRequest_attached (now logNow : Int) (s : State) (ctx : Context)
    (hctx : s.a.ctx = some ctx) :
    ∃ s1 ctx1, LogRequest now logNow s = some s1
      ∧ s1.a.ctx = some ctx1
      ∧ ctx1.Writer = ResponseWriter.bodyLog ctx.Writer s.heap.nbuffers
      ∧ s1.a.responseBody = some ⟨ctx.Writer, s.heap.nbuffers⟩
      ∧ s1.heap = s.heap.newBuffer.2
      ∧ s1.a.fields = s.a.fields
      ∧ s1.a.zapLogger = s.a.zapLogger
      ∧ s1.a.t = some now
      ∧ s1.log = s.log ++ [(s1.a.zapLogger.WithFields (generateFields s1.a logNow)).entry
          Level.Info (ascii "request")
          [zap.String (ascii "url") ctx1.Request.URLPath,
           zap.String (ascii "input") s1.a.requestBody,
           zap.String (ascii "output") [],
           zap.Int64 (ascii "latency") 0,
           zap.Int (ascii "status") 0]] := by
  cases hbody : ctx.Request.Body with
  | none =>
      simp only [LogRequest, hctx, hbody]
      exact ⟨_, _, rfl, rfl, rfl, rfl, rfl, rfl, rfl, rfl, rfl⟩
  | some body =>
      cases hct : HasPrefix (HeaderGet ctx.Request.Header (ascii "Content-Type"))
          (ascii "multipart/form-data") with
      | true =>
          simp only [LogRequest, hctx, hbody, hct]
          exact ⟨_, _, rfl, rfl, rfl, rfl, rfl, rfl, rfl, rfl, rfl⟩
      | false =>
          simp only [LogRequest, hctx, hbody, hct]
          exact ⟨_, _, rfl, rfl, rfl, rfl, rfl, rfl, rfl, rfl, rfl⟩

theorem setHeader_newBuffer_facts (h : Heap) (addr : Nat)
    (header : List (GoString × List GoString)) :
    ((h.newBuffer.2.setHeader addr header).buffers h.nbuffers = [])
    ∧ ((h.newBuffer.2.setHeader addr header).writers addr).header = header
    ∧ ((h.newBuffer.2.setHeader addr header).writers addr).received = (h.writers addr).received := by
  simp [Heap.newBuffer, Heap.setHeader]

theorem leveled_fields_filter (a : AppLoggerImpl) (now : Int) (k v : GoString)
    (refID result : Any) (serviceName : GoString)
    (hlook : a.fields.lookup k = some v)
    (h1 : k ≠ ascii "logID") (h2 : k ≠ ascii "sid") (h3 : k ≠ ascii "custID")
    (h4 : k ≠ ascii "refID") (h5 : k ≠ ascii "serviceName") (h6 : k ≠ ascii "result") :
    (generateFields a now
        ++ [zap.Any (ascii "refID") refID, zap.Any (ascii "serviceName") (Any.string serviceName),
            zap.Any (ascii "result") result]).filter (fun f => decide (f.Key = k))
      = [zap.String k v] := by
  have e4 : ∀ x, ¬ (zap.Any (ascii "refID") x).Key = k := fun x h => h4 h.symm
  have e5 : ∀ x, ¬ (zap.Any (ascii "serviceName") x).Key = k := fun x h => h5 h.symm
  have e6 : ∀ x, ¬ (zap.Any (ascii "result") x).Key = k := fun x h => h6 h.symm
  rw [List.filter_append, generateFields_filter a now k v hlook h1 h2 h3]
  simp [List.filter_cons, e4, e5, e6]

theorem hook_fields_filter (a : AppLoggerImpl) (now : Int) (k v : GoString)
    (url input output : GoString) (lat status : Int)
    (hlook : a.fields.lookup k = some v)
    (h1 : k ≠ ascii "logID") (h2 : k ≠ ascii "sid") (h3 : k ≠ ascii "custID")
    (h4 : k ≠ ascii "url") (h5 : k ≠ ascii "input") (h6 : k ≠ ascii "output")
    (h7 : k ≠ ascii "latency") (h8 : k ≠ ascii "status") :
    (generateFields a now
        ++ [zap.String (ascii "url") url, zap.String (ascii "input") input,
            zap.String (ascii "output") output, zap.Int64 (ascii "latency") lat,
            zap.Int (ascii "status") status]).filter (fun f => decide (f.Key = k))
      = [zap.String k v] := by
  have e4 : ∀ x, ¬ (zap.String (ascii "url") x).Key = k := fun x h => h4 h.symm
  have e5 : ∀ x, ¬ (zap.String (ascii "input") x).Key = k := fun x h => h5 h.symm
  have e6 : ∀ x, ¬ (zap.String (ascii "output") x).Key = k := fun x h => h6 h.symm
  have e7 : ∀ x, ¬ (zap.Int64 (ascii "latency") x).Key = k := fun x h => h7 h.symm
  have e8 : ∀ x, ¬ (zap.Int (ascii "status") x).Key = k := fun x h => h8 h.symm
  rw [List.filter_append, generateFields_filter a now k v hlook h1 h2 h3]
  simp [List.filter_cons, e4, e5, e6, e7, e8]

theorem count_keys_eq_length_filter (k : GoString) (l : List Field) :
    (l.map fun f => f.Key).count k = (l.filter fun f => decide (f.Key = k)).length := by
  induction l with
  | nil => rfl
  | cons f l ih =>
      by_cases h : f.Key = k
      · simp [List.filter_cons, h, ih]
      · simp [List.filter_cons, h, ih, List.count_cons]

/-- A record has one member named `k` when its fields have one and `k` is
none of the names of level, time, message and stack trace. -/
theorem entry_keys_count (k : GoString) (lvl : Level) (msg : GoString) (fields : List Field)
    (f : Field) (hf : fields.filter (fun f => decide (f.Key = k)) = [f])
    (h1 : k ≠ ascii "level") (h2 : k ≠ ascii "timestamp") (h3 : k ≠ ascii "message")
    (hs : Level.Enabled Level.Error lvl = true → k ≠ ascii "stacktrace") :
    (Entry.mk lvl msg fields).keys.count k = 1 := by
  have hc := count_keys_eq_length_filter k fields
  rw [hf] at hc
  simp only [Entry.keys, List.count_append, hc]
  have h0 : List.count k [ascii "level", ascii "timestamp", ascii "message"] = 0 := by
    simp [List.count_cons, h1.symm, h2.symm, h3.symm]
  rw [h0]
  by_cases hl : Level.Enabled Level.Error lvl = true
  · simp [hl, List.count_cons, (hs hl).symm]
  · simp [hl]

/-- One call keeps the field store and adds only entries with exactly one
member named `k`, when `k` is none of the names the call supplies itself. -/
theorem Op_run_entries (k v : GoString) (op : Op) (s s1 : State)
    (hk : k ∉ op.ownKeys) (hlook : s.a.fields.lookup k = some v)
    (hrun : op.run s = some s1) :
    s1.a.fields.lookup k = some v
    ∧ ∃ es, s1.log = s.log ++ es
        ∧ ∀ e ∈ es, e.keys.count k = 1
            ∧ e.Fields.filter (fun f => decide (f.Key = k)) = [zap.String k v] := by
  cases op with
  | Debug m r sv res now =>
      simp only [Op.run, Option.some.injEq] at hrun
      subst hrun
      simp only [Op.ownKeys, List.mem_cons, List.mem_singleton, not_or, List.not_mem_nil,
        not_false_eq_true, and_true] at hk
      obtain ⟨hl, ht, hm, h1, h2, h3, h4, h5, h6⟩ := hk
      have hf := leveled_fields_filter s.a now k v r res sv hlook h1 h2 h3 h4 h5 h6
      refine ⟨hlook, _, rfl, ?_⟩
      intro e he
      rw [List.mem_singleton] at he
      subst he
      exact ⟨entry_keys_count k Level.Debug m _ _ hf hl ht hm (fun h => absurd h (by decide)), hf⟩
  | Info m r sv res now =>
      simp only [Op.run, Option.some.injEq] at hrun
      subst hrun
      simp only [Op.ownKeys, List.mem_cons, List.mem_singleton, not_or, List.not_mem_nil,
        not_false_eq_true, and_true] at hk
      obtain ⟨hl, ht, hm, h1, h2, h3, h4, h5, h6⟩ := hk
      have hf := leveled_fields_filter s.a now k v r res sv hlook h1 h2 h3 h4 h5 h6
      refine ⟨hlook, _, rfl, ?_⟩
      intro e he
      rw [List.mem_singleton] at he
      subst he
      exact ⟨entry_keys_count k Level.Info m _ _ hf hl ht hm (fun h => absurd h (by decide)), hf⟩
  | Warn m r sv res now =>
      simp only [Op.run, Option.some.injEq] at hrun
      subst hrun
      simp only [Op.ownKeys, List.mem_cons, List.mem_singleton, not_or, List.not_mem_nil,
        not_false_eq_true, and_true] at hk
      obtain ⟨hl, ht, hm, h1, h2, h3, h4, h5, h6⟩ := hk
      have hf := leveled_fields_filter s.a now k v r res sv hlook h1 h2 h3 h4 h5 h6
      refine ⟨hlook, _, rfl, ?_⟩
      intro e he
      rw [List.mem_singleton] at he
      subst he
      exact ⟨entry_keys_count k Level.Warn m _ _ hf hl ht hm (fun h => absurd h (by decide)), hf⟩
  | Error m r sv res now =>
      simp only [Op.run, Option.some.injEq] at hrun
      subst hrun
      simp only [Op.ownKeys, List.mem_cons, List.mem_singleton, not_or, List.not_mem_nil,
        not_false_eq_true, and_true] at hk
      obtain ⟨hl, ht, hm, h1, h2, h3, h4, h5, h6, h7⟩ := hk
      have hf := leveled_fields_filter s.a now k v r res sv hlook h1 h2 h3 h4 h5 h6
      refine ⟨hlook, _, rfl, ?_⟩
      intro e he
      rw [List.mem_singleton] at he
      subst he
      exact ⟨entry_keys_count k Level.Error m _ _ hf hl ht hm (fun _ => h7), hf⟩
  | LogRequest now logNow =>
      simp only [Op.run] at hrun
      simp only [Op.ownKeys, List.mem_cons, List.mem_singleton, not_or, List.not_mem_nil,
        not_false_eq_true, and_true] at hk
      obtain ⟨hl, ht, hm, h1, h2, h3, h4, h5, h6, h7, h8⟩ := hk
      cases hctx : s.a.ctx with
      | none => simp [LogRequest, hctx] at hrun
      | some ctx =>
          obtain ⟨s2, ctx1, hreq, -, -, -, -, hf, -, -, hlog⟩ :=
            LogRequest_attached now logNow s ctx hctx
          rw [hreq, Option.some.injEq] at hrun
          subst hrun
          have hlook2 : s2.a.fields.lookup k = some v := by rw [hf]; exact hlook
          have hfil := hook_fields_filter s2.a logNow k v ctx1.Request.URLPath
            s2.a.requestBody [] 0 0 hlook2 h1 h2 h3 h4 h5 h6 h7 h8
          refine ⟨hlook2, _, hlog, ?_⟩
          intro e he
          rw [List.mem_singleton] at he
          subst he
          exact ⟨entry_keys_count k Level.Info _ _ _ hfil hl ht hm
            (fun h => absurd h (by decide)), hfil⟩
  | LogResponse logNow now =>
      simp only [Op.run] at hrun
      simp only [Op.ownKeys, List.mem_cons, List.mem_singleton, not_or, List.not_mem_nil,
        not_false_eq_true, and_true] at hk
      obtain ⟨hl, ht, hm, h1, h2, h3, h4, h5, h6, h7, h8⟩ := hk
      cases hctx : s.a.ctx with
      | none =>
          simp only [LogResponse, hctx, Option.some.injEq] at hrun
          subst hrun
          exact ⟨hlook, [], by simp, by simp⟩
      | some ctx =>
          simp only [LogResponse, hctx] at hrun
          split at hrun
          · simp at hrun
          · simp only [Option.some.injEq] at hrun
            subst hrun
            refine ⟨hlook, _, rfl, ?_⟩
            intro e he
            rw [List.mem_singleton] at he
            subst he
            have hfil := fun out => hook_fields_filter s.a logNow k v ctx.Request.URLPath
              s.a.requestBody out (latency now s.a.t)
              (s.heap.writers ctx.Writer.base).status hlook h1 h2 h3 h4 h5 h6 h7 h8
            exact ⟨entry_keys_count k Level.Info _ _ _ (hfil _) hl ht hm
              (fun h => absurd h (by decide)), hfil _⟩
  | WithContext ctx =>
      simp only [Op.run, Option.some.injEq] at hrun
      subst hrun
      exact ⟨hlook, [], by simp [WithContext], by simp⟩
  | WithField key value =>
      simp only [Op.run, Option.some.injEq] at hrun
      subst hrun
      have hne : k ≠ key := by simpa [Op.ownKeys] using hk
      refine ⟨?_, [], by simp [WithField], by simp⟩
      simp only [WithField]
      rw [AList.lookup_insert_ne hne]
      exact hlook
  | Write b =>
      simp only [Op.run, Option.some.injEq] at hrun
      subst hrun
      refine ⟨?_, [], ?_, by simp⟩
      · unfold handlerWrite; split <;> exact hlook
      · unfold handlerWrite; split <;> simp
  | WriteString str =>
      simp only [Op.run, Option.some.injEq] at hrun
      subst hrun
      refine ⟨?_, [], ?_, by simp⟩
      · unfold handlerWriteString; split <;> exact hlook
      · unfold handlerWriteString; split <;> simp

theorem exec_entries (k v : GoString) (ops : List Op) :
    ∀ s s1 : State, (∀ op ∈ ops, k ∉ op.ownKeys) → s.a.fields.lookup k = some v →
      exec ops s = some s1 →
      ∃ es, s1.log = s.log ++ es
        ∧ ∀ e ∈ es, e.keys.count k = 1
            ∧ e.Fields.filter (fun f => decide (f.Key = k)) = [zap.String k v] := by
  induction ops with
  | nil =>
      intro s s1 _ _ hrun
      simp only [exec, Option.some.injEq] at hrun
      subst hrun
      exact ⟨[], by simp, by simp⟩
  | cons op ops ih =>
      intro s s1 hk hlook hrun
      simp only [exec] at hrun
      cases hop : op.run s with
      | none => simp [hop] at hrun
      | some s2 =>
          rw [hop] at hrun
          obtain ⟨hlook2, es1, hlog1, hes1⟩ :=
            Op_run_entries k v op s s2 (hk op (List.mem_cons_self _ _)) hlook hop
          obtain ⟨es2, hlog2, hes2⟩ :=
            ih s2 s1 (fun o ho => hk o (List.mem_cons_of_mem _ ho)) hlook2 hrun
          refine ⟨es1 ++ es2, by rw [hlog2, hlog1, List.append_assoc], ?_⟩
          intro e he
          rcases List.mem_append.mp he with h | h
          · exact hes1 e h
          · exact hes2 e h

/-! ## The claims -/

/-- C1: `bodyLogWriter.Write(b)` returns exactly the byte count and error of
the wrapped writer's `Write(b)`, leaves the wrapped writer in the state a
direct `Write(b)` leaves it in (the slice `b` is what it receives), and
appends `b` to the capture buffer; after the writes `b1..bn` the buffer is
its former content followed by `b1 ++ ... ++ bn`.  The adapter's buffer is
its own: no adapter inside the wrapped writer shares it. -/
theorem bodyLogWriter_Write_passthrough (w : bodyLogWriter) (h : Heap) (b : List UInt8)
    (hown : w.body ∉ w.ResponseWriter.bodies) :
    (w.Write b h).2 = (w.ResponseWriter.Write b h).2
    ∧ (w.Write b h).1.writers = (w.ResponseWriter.Write b h).1.writers
    ∧ ((w.Write b h).1.writers w.ResponseWriter.base).received
        = (h.writers w.ResponseWriter.base).received ++ [b]
    ∧ (w.Write b h).1.buffers w.body = h.buffers w.body ++ b
    ∧ ∀ ws : List (List UInt8),
        (w.toWriter.writeAll ws h).buffers w.body = h.buffers w.body ++ ws.flatten := by
  have hdep := Write_depends_on_writers w.ResponseWriter b (h.bufferWrite w.body b) h rfl
  refine ⟨hdep.1, hdep.2, ?_, ?_, ?_⟩
  · have hw := (Write_writers w.ResponseWriter b (h.bufferWrite w.body b)).1
    simp only [bodyLogWriter.Write, hw]
    simp [GinWriter.Write, Heap.bufferWrite]
  · simp only [bodyLogWriter.Write]
    rw [Write_buffers_of_not_mem _ _ _ _ hown]
    simp [Heap.bufferWrite]
  · intro ws
    exact writeAll_buffers w.ResponseWriter w.body hown ws h

theorem bodyLogWriter_Write_passthrough_witness :
    (0 ∉ (ResponseWriter.gin 0).bodies)
    ∧ ((bodyLogWriter.mk (.gin 0) 0).Write (ascii "abc")
          (State.init (NewAppLogger id (ascii "info"))
            (fun _ => ⟨[], 200, [], [(2, some (ascii "short write"))]⟩)).heap).2
        = ((ResponseWriter.gin 0).Write (ascii "abc")
          (State.init (NewAppLogger id (ascii "info"))
            (fun _ => ⟨[], 200, [], [(2, some (ascii "short write"))]⟩)).heap).2 :=
  ⟨by decide,
   (bodyLogWriter_Write_passthrough (bodyLogWriter.mk (.gin 0) 0)
      (State.init (NewAppLogger id (ascii "info"))
        (fun _ => ⟨[], 200, [], [(2, some (ascii "short write"))]⟩)).heap
      (ascii "abc") (by decide)).1⟩

/-- C2, counterexample: after `LogRequest`, a handler that writes "abc" and
"def" with `WriteString` and "ghi" with `Write` through the installed
writer, with a JSON response: the framework writer receives all three, the
output field of the "response" entry is "ghi" only.  And on a logger built
at level "error", the same run with three `Write` calls emits no record
at all. -/
theorem LogResponse_misses_WriteString :
    ((LogRequest 1 2 (WithContext (some (sampleContext (ascii "application/json") (ascii "[1,2]")))
        (sampleState (ascii "application/json")))).bind fun s1 =>
      s1.a.ctx.bind fun ctx1 =>
        (LogResponse 3 4 { s1 with heap := (ctx1.Writer.handleAll
            [HandlerWrite.WriteString (ascii "abc"), HandlerWrite.WriteString (ascii "def"),
             HandlerWrite.Write (ascii "ghi")] s1.heap) }).map
          fun s2 => (s2.log.getLast?.map fun e =>
              e.Fields.filter fun f => decide (f.Key = ascii "output"),
            (s2.heap.writers 0).received))
      = some (some [zap.String (ascii "output") (ascii "ghi")],
          [ascii "abc", ascii "def", ascii "ghi"])
    ∧ ((LogRequest 1 2 (WithContext
          (some (sampleContext (ascii "application/json") (ascii "[1,2]")))
          (State.init (NewAppLogger id (ascii "error"))
            (fun _ => sampleWriter (ascii "application/json"))))).bind fun s1 =>
        s1.a.ctx.bind fun ctx1 =>
          (LogResponse 3 4 { s1 with heap := (ctx1.Writer.handleAll
              [HandlerWrite.Write (ascii "abc"), HandlerWrite.Write (ascii "def"),
               HandlerWrite.Write (ascii "ghi")] s1.heap) }).map
            fun s2 => s2.records)
      = some [] := by
  decide

/-- C2, amended: on a logger whose level admits info-level records, with a
context attached: after `LogRequest`, let the handler set the response
header and write `w1..wn` with `Write` through the installed writer.  Then
`LogResponse` returns normally and emits exactly one record, the info-level
"response" entry, whose output field is `w1 ++ ... ++ wn` when the response
content type begins with "application/json" and the empty string otherwise;
in both cases the framework writer below has received `w1, ..., wn`.  All
adapter buffers reachable from the context are allocated ones. -/
theorem LogResponse_output (now logNow logNow2 now2 : Int) (s : State) (ctx : Context)
    (header : List (GoString × List GoString)) (ws : List (List UInt8))
    (hctx : s.a.ctx = some ctx)
    (halloc : ∀ p ∈ ctx.Writer.bodies, p < s.heap.nbuffers)
    (hinfo : Level.Enabled s.a.zapLogger.level Level.Info = true) :
    ∃ s1 ctx1 s2, LogRequest now logNow s = some s1
      ∧ s1.a.ctx = some ctx1
      ∧ LogResponse logNow2 now2
          { s1 with heap := ctx1.Writer.writeAll ws (s1.heap.setHeader ctx1.Writer.base header) }
        = some s2
      ∧ s2.records
        = s1.records ++ [(s1.a.zapLogger.WithFields (generateFields s1.a logNow2)).entry
            Level.Info (ascii "response")
            [zap.String (ascii "url") ctx1.Request.URLPath,
             zap.String (ascii "input") s1.a.requestBody,
             zap.String (ascii "output")
               (if HasPrefix (HeaderGet header (ascii "Content-Type"))
                  (ascii "application/json") then ws.flatten else []),
             zap.Int64 (ascii "latency") (latency now2 (some now)),
             zap.Int (ascii "status") (s.heap.writers ctx.Writer.base).status]]
      ∧ (s2.heap.writers ctx.Writer.base).received
          = (s.heap.writers ctx.Writer.base).received ++ ws := by
  obtain ⟨s1, ctx1, hreq, hctx1, hw, hrb, hheap, -, hzap, ht, -⟩ :=
    LogRequest_attached now logNow s ctx hctx
  have hown : s.heap.nbuffers ∉ ctx.Writer.bodies := fun h => Nat.lt_irrefl _ (halloc _ h)
  have hbase : ctx1.Writer.base = ctx.Writer.base := by rw [hw]; rfl
  have hfacts := setHeader_newBuffer_facts s.heap ctx.Writer.base header
  have hwr := writeAll_writers ctx1.Writer ws (s1.heap.setHeader ctx1.Writer.base header)
  have hbuf := writeAll_buffers ctx.Writer s.heap.nbuffers hown ws
    (s1.heap.setHeader ctx1.Writer.base header)
  rw [← hw] at hbuf
  rw [hbase, hheap] at hwr hbuf
  rw [hfacts.1] at hbuf
  rw [hfacts.2.1, hfacts.2.2] at hwr
  have hstatus : ((s.heap.newBuffer.2.setHeader ctx.Writer.base header).writers
      ctx.Writer.base).status = (s.heap.writers ctx.Writer.base).status := by
    simp [Heap.newBuffer, Heap.setHeader]
  have hinfo1 : Level.Enabled s1.a.zapLogger.level Level.Info = true := by rw [hzap]; exact hinfo
  have hresp : LogResponse logNow2 now2
      { s1 with heap := ctx1.Writer.writeAll ws (s1.heap.setHeader ctx1.Writer.base header) }
      = some
        { s1 with
          heap := ctx1.Writer.writeAll ws (s1.heap.setHeader ctx1.Writer.base header)
          log := s1.log ++ [(s1.a.zapLogger.WithFields (generateFields s1.a logNow2)).entry
            Level.Info (ascii "response")
            [zap.String (ascii "url") ctx1.Request.URLPath,
             zap.String (ascii "input") s1.a.requestBody,
             zap.String (ascii "output")
               (if HasPrefix (HeaderGet header (ascii "Content-Type"))
                  (ascii "application/json") then ws.flatten else []),
             zap.Int64 (ascii "latency") (latency now2 (some now)),
             zap.Int (ascii "status") (s.heap.writers ctx.Writer.base).status]] } := by
    rw [hbase, hheap]
    simp only [LogResponse, hctx1, hrb, hbase, hwr.2.1, hwr.2.2, hbuf, ht, hstatus]
    by_cases hjson : HasPrefix (HeaderGet header (ascii "Content-Type"))
        (ascii "application/json") = true
    · simp [hjson]
    · simp [hjson]
  refine ⟨s1, ctx1, _, hreq, hctx1, hresp, ?_, ?_⟩
  · simp [State.records, List.filter_append, FieldLogger.entry, hinfo1]
  · show ((ctx1.Writer.writeAll ws (s1.heap.setHeader ctx1.Writer.base header)).writers
      ctx.Writer.base).received = _
    rw [hbase, hheap]
    exact hwr.1

theorem LogResponse_output_witness :
    (Level.Enabled (WithContext (some (sampleContext (ascii "application/json") (ascii "[1,2]")))
        (sampleState (ascii "text/html"))).a.zapLogger.level Level.Info = true)
    ∧ ∃ s1 ctx1 s2,
        LogRequest 1 2 (WithContext (some (sampleContext (ascii "application/json") (ascii "[1,2]")))
          (sampleState (ascii "text/html"))) = some s1
        ∧ s1.a.ctx = some ctx1
        ∧ LogResponse 3 4
            { s1 with heap := (ctx1.Writer.writeAll [ascii "abc", ascii "def"]
                (s1.heap.setHeader ctx1.Writer.base
                  [(ascii "Content-Type", [ascii "application/json"])])) }
          = some s2
        ∧ (s2.heap.writers 0).received = [] ++ [ascii "abc", ascii "def"] :=
  ⟨by decide,
   (LogResponse_output 1 2 3 4
      (WithContext (some (sampleContext (ascii "application/json") (ascii "[1,2]")))
        (sampleState (ascii "text/html")))
      (sampleContext (ascii "application/json") (ascii "[1,2]"))
      [(ascii "Content-Type", [ascii "application/json"])]
      [ascii "abc", ascii "def"] rfl
      (by intro p hp; simp [sampleContext, ResponseWriter.bodies] at hp) (by decide)).imp
    fun _ h => h.imp fun _ h => h.imp fun _ h => ⟨h.1, h.2.1, h.2.2.1, h.2.2.2.2⟩⟩

/-- C3: for every logger, `Clone()` is a logger with the same level, an
empty field store, no request context and no capture state (start time,
captured request body, adapter), and the call leaves the receiver and the
rest of the program state as they were. -/
theorem Clone_resets (unicodeLower : GoString → GoString) (s : State) :
    (Clone unicodeLower s).1.zapLogger.level = s.a.zapLogger.level
    ∧ (Clone unicodeLower s).1.fields = ∅
    ∧ (Clone unicodeLower s).1.ctx = none
    ∧ (Clone unicodeLower s).1.t = none
    ∧ (Clone unicodeLower s).1.requestBody = []
    ∧ (Clone unicodeLower s).1.responseBody = none
    ∧ (Clone unicodeLower s).2 = s := by
  refine ⟨?_, rfl, rfl, rfl, rfl, rfl, rfl⟩
  simp [Clone, NewAppLogger, initZapLogger, ParseAtomicLevel, ParseLevel_String]

/-- C4, counterexample: after `WithField(RefID, "A")` and
`WithField(RefID, "B")`, the entry of an `Info` call has two fields named
"refID", the stored "B" and the reference id of the call, so its record
has two members of that name. -/
theorem WithField_refID_twice_in_entry :
    (Info (ascii "m") (Any.int64 7) (ascii "svc") Any.null 5
        (WithField RefID (ascii "B") (WithField RefID (ascii "A")
          (sampleState (ascii "text/html"))))).log.map
      (fun e => e.Fields.filter fun f => decide (f.Key = RefID))
      = [[zap.String RefID (ascii "B"), zap.Any RefID (Any.int64 7)]]
    ∧ (Info (ascii "m") (Any.int64 7) (ascii "svc") Any.null 5
        (WithField RefID (ascii "B") (WithField RefID (ascii "A")
          (sampleState (ascii "text/html"))))).log.map (fun e => e.keys.count RefID) = [2] := by
  decide

/-- C4, amended: after `WithField(k, A)` and `WithField(k, B)`, every entry
written by later calls (leveled writes, request and response hooks; with
contexts attached, other keys stored and handler writes in between) makes
a record with exactly one member named `k`, the string field `B`,
provided no later call supplies a member named `k` itself: `k` is not
stored again and is none of the names the record carries by itself (level,
timestamp, message, the stack trace of an error record, the log id, the
context-derived names and the names of the call's own fields).  Runs that
end in a panic are covered through their prefixes. -/
theorem WithField_overwrite (k A B : GoString) (s : State) (ops : List Op) (s1 : State)
    (hk : ∀ op ∈ ops, k ∉ op.ownKeys)
    (hrun : exec ops (WithField k B (WithField k A s)) = some s1) :
    ∃ es, s1.log = s.log ++ es
      ∧ ∀ e ∈ es, e.keys.count k = 1
          ∧ e.Fields.filter (fun f => decide (f.Key = k)) = [zap.String k B] :=
  exec_entries k B ops (WithField k B (WithField k A s)) s1 hk
    (by simp [WithField, AList.lookup_insert]) hrun

theorem WithField_overwrite_witness :
    (∀ op ∈ sampleCalls, AppName ∉ op.ownKeys)
    ∧ ∃ s1, exec sampleCalls (WithField AppName (ascii "B") (WithField AppName (ascii "A")
          (sampleState (ascii "application/json")))) = some s1
        ∧ ∃ es, s1.log = (sampleState (ascii "application/json")).log ++ es
          ∧ ∀ e ∈ es, e.keys.count AppName = 1
              ∧ e.Fields.filter (fun f => decide (f.Key = AppName))
                  = [zap.String AppName (ascii "B")] :=
  ⟨by decide,
   (Option.isSome_iff_exists.mp
      (show (exec sampleCalls (WithField AppName (ascii "B") (WithField AppName (ascii "A")
        (sampleState (ascii "application/json"))))).isSome = true from rfl)).imp
    fun s1 h => ⟨h, WithField_overwrite AppName (ascii "A") (ascii "B")
      (sampleState (ascii "application/json")) sampleCalls s1 (by decide) h⟩⟩

/-- C5: `LogRequest` on a logger without a request context panics (the
context is dereferenced before the nil check), and so does `LogResponse` on
a logger with a context whose response is JSON when `LogRequest` was never
called (the adapter is nil). -/
theorem logging_hooks_panic :
    LogRequest 1 2 (sampleState (ascii "application/json")) = none
    ∧ LogResponse 3 4
        (WithContext (some (sampleContext (ascii "application/json") (ascii "[1,2]")))
          (sampleState (ascii "application/json"))) = none :=
  ⟨rfl, rfl⟩

/-- C6: the field list `generateFields` builds is the log id, then the "sid"
field exactly when a context is attached and its stored "sid" string is not
empty, then the "custID" field under the same condition, then one string
field per entry of the field store; without a context no context-derived
field appears. -/
theorem generateFields_contents (a : AppLoggerImpl) (now : Int) :
    generateFields a now
      = [zap.Int64 (ascii "logID") now]
        ++ (match a.ctx with
            | some ctx =>
                (if ctx.GetString (ascii "sid") ≠ [] then
                  [zap.String (ascii "sid") (ctx.GetString (ascii "sid"))] else [])
                ++ (if ctx.GetString (ascii "custID") ≠ [] then
                  [zap.String (ascii "custID") (ctx.GetString (ascii "custID"))] else [])
            | none => [])
        ++ a.fields.entries.map fun e => zap.String e.1 e.2 :=
  generateFields_eq a now

/-- C7: for a request that is not a file upload and has a body delivering
the bytes `B`, `LogRequest` returns normally, the captured request body is
`B`, `B` is the input field of the "request" entry it writes, and the
request's body is again a stream that delivers exactly `B`. -/
theorem LogRequest_captures_body (now logNow : Int) (s : State) (ctx : Context)
    (B : List UInt8) (err : Option GoString)
    (hctx : s.a.ctx = some ctx)
    (hbody : ctx.Request.Body = some ⟨B, err⟩)
    (hct : HasPrefix (HeaderGet ctx.Request.Header (ascii "Content-Type"))
      (ascii "multipart/form-data") = false) :
    ∃ s1 ctx1 body1, LogRequest now logNow s = some s1
      ∧ s1.a.requestBody = B
      ∧ s1.a.ctx = some ctx1
      ∧ ctx1.Request.Body = some body1
      ∧ ReadAll body1 = (B, none)
      ∧ s1.log = s.log ++ [(s1.a.zapLogger.WithFields (generateFields s1.a logNow)).entry
          Level.Info (ascii "request")
          [zap.String (ascii "url") ctx.Request.URLPath,
           zap.String (ascii "input") B,
           zap.String (ascii "output") [],
           zap.Int64 (ascii "latency") 0,
           zap.Int (ascii "status") 0]] := by
  simp only [LogRequest, hctx, hbody, hct]
  exact ⟨_, _, _, rfl, rfl, rfl, rfl, rfl, rfl⟩

theorem LogRequest_captures_body_witness :
    HasPrefix (HeaderGet (sampleContext (ascii "application/json") (ascii "[1,2]")).Request.Header
        (ascii "Content-Type")) (ascii "multipart/form-data") = false
    ∧ ∃ s1 ctx1 body1,
        LogRequest 1 2 (WithContext (some (sampleContext (ascii "application/json") (ascii "[1,2]")))
          (sampleState (ascii "text/html"))) = some s1
        ∧ s1.a.requestBody = ascii "[1,2]"
        ∧ s1.a.ctx = some ctx1
        ∧ ctx1.Request.Body = some body1
        ∧ ReadAll body1 = (ascii "[1,2]", none) :=
  ⟨by decide,
   (LogRequest_captures_body 1 2
      (WithContext (some (sampleContext (ascii "application/json") (ascii "[1,2]")))
        (sampleState (ascii "text/html")))
      (sampleContext (ascii "application/json") (ascii "[1,2]")) (ascii "[1,2]") none rfl rfl
      (by decide)).imp
    fun _ h => h.imp fun _ h => h.imp fun _ h => ⟨h.1, h.2.1, h.2.2.1, h.2.2.2.1, h.2.2.2.2.1⟩⟩

/-- C8: on a logger that captured the body "old" of an earlier request,
`LogRequest` for a file upload leaves the captured body "old" and writes a
"request" entry whose input field is "old", not the empty string. -/
theorem LogRequest_upload_keeps_stale_body :
    ((LogRequest 1 2 (WithContext (some (sampleContext (ascii "application/json") (ascii "old")))
        (sampleState (ascii "text/html")))).bind fun s =>
      (LogRequest 3 4 (WithContext
        (some (sampleContext (ascii "multipart/form-data; boundary=x") (ascii "file"))) s)).map
        fun s => (s.a.requestBody,
          s.log.getLast?.map fun e => e.Fields.filter fun f => decide (f.Key = ascii "input")))
      = some (ascii "old", some [zap.String (ascii "input") (ascii "old")]) := by
  decide

/-- C9: without a request context `LogResponse` returns normally, writes no
entry and leaves the whole state, the logger included, as it was. -/
theorem LogResponse_without_context (logNow now : Int) (s : State) (hctx : s.a.ctx = none) :
    LogResponse logNow now s = some s := by
  simp [LogResponse, hctx]

theorem LogResponse_without_context_witness :
    (State.init (NewAppLogger id (ascii "info")) (fun _ => ⟨[], 200, [], []⟩)).a.ctx = none
    ∧ LogResponse 5 7 (State.init (NewAppLogger id (ascii "info")) (fun _ => ⟨[], 200, [], []⟩))
        = some (State.init (NewAppLogger id (ascii "info")) (fun _ => ⟨[], 200, [], []⟩)) :=
  ⟨rfl, LogResponse_without_context 5 7 _ rfl⟩

/-- C10: for a level string the parser rejects, `NewAppLogger` still returns
a logger (the parse error is dropped): its level is the default, info, its
field store is empty and it has no request context. -/
theorem NewAppLogger_invalid_level (unicodeLower : GoString → GoString) (level : GoString)
    (hbad : ParseLevel unicodeLower level = none) :
    (ParseAtomicLevel unicodeLower level).2 = true
    ∧ (NewAppLogger unicodeLower level).zapLogger.level = Level.Info
    ∧ (NewAppLogger unicodeLower level).fields = ∅
    ∧ (NewAppLogger unicodeLower level).ctx = none := by
  simp [NewAppLogger, initZapLogger, ParseAtomicLevel, hbad]

theorem NewAppLogger_invalid_level_witness :
    ParseLevel id (ascii "verbose") = none
    ∧ (NewAppLogger id (ascii "verbose")).zapLogger.level = Level.Info :=
  ⟨by decide, (NewAppLogger_invalid_level id (ascii "verbose") (by decide)).2.1⟩

end applogger
